import Mathlib

/-!
Verification of the ingestion / deduplication / retry / feedback pipeline of the
news-aggregator bot.  Python dictionaries (which preserve insertion order) are
embedded as association lists over `String` keys; floating-point timestamps and
similarity scores are embedded as rationals (with the real-valued cosine score
recovered in ℝ in the statements); every operation is translated directly from
the corresponding function of the source files (`database.py`, `main.py`,
`retry_queue.py`, `vote_tracker.py`, `removed_entries.py`, `config.py`).
Definitions come first, followed by the supporting lemmas and the claim
theorems.
-/

namespace NewsBot

/-- Association-list update mirroring Python dict assignment `d[k] = v`:
an existing key keeps its position and gets the new value, a new key is
appended at the end (Python dicts preserve insertion order). -/
def setKey {β : Type} : List (String × β) → String → β → List (String × β)
  | [], k, v => [(k, v)]
  | (k', v') :: rest, k, v =>
      if k' = k then (k, v) :: rest else (k', v') :: setKey rest k v

/-- Association-list lookup mirroring Python `d.get(k)` / `d[k]`. -/
def getKey? {β : Type} : List (String × β) → String → Option β
  | [], _ => none
  | (k', v') :: rest, k => if k' = k then some v' else getKey? rest k

/-- Key-membership test mirroring Python `k in d`. -/
def hasKey {β : Type} (l : List (String × β)) (k : String) : Bool :=
  (getKey? l k).isSome

/-- Association-list deletion mirroring Python `del d[k]` (keys are unique in
a dict, so dropping every binding of `k` is faithful). -/
def eraseKey {β : Type} (l : List (String × β)) (k : String) : List (String × β) :=
  l.filter (fun p => p.1 != k)

/-! ### Vector arithmetic (numpy `dot` / `linalg.norm` over rational entries) -/

/-- Dot product of two vectors, `np.dot(vec1, vec2)` (entrywise over the common
length, the only case arising in the program). -/
def dot : List ℚ → List ℚ → ℚ
  | a :: as, b :: bs => a * b + dot as bs
  | _, _ => 0

/-- Squared Euclidean norm; `np.linalg.norm v` is its square root. -/
def normSq (v : List ℚ) : ℚ := dot v v

/-- Real-valued specification of `Database._cosine_similarity` followed by the
comparison `similarity >= threshold` (database.py:113-121,123-141): the cosine
score `dot(a,b)/(‖a‖·‖b‖)` is at least `t`.  When either vector has zero norm
the code returns exactly 0.0, and in Lean division by the zero denominator also
yields 0, so the formula below covers that convention as well. -/
def CosSimGe (v1 v2 : List ℚ) (t : ℚ) : Prop :=
  (t : ℝ) ≤ (dot v1 v2 : ℝ) / (Real.sqrt (normSq v1) * Real.sqrt (normSq v2))

/-- Executable decision of `CosSimGe` with rational arithmetic only (squaring
both sides of the comparison instead of taking square roots). -/
def cosGe (v1 v2 : List ℚ) (t : ℚ) : Bool :=
  if normSq v1 = 0 ∨ normSq v2 = 0 then decide (t ≤ 0)
  else if 0 ≤ t then
    decide (0 ≤ dot v1 v2) && decide (t ^ 2 * (normSq v1 * normSq v2) ≤ dot v1 v2 ^ 2)
  else
    decide (0 ≤ dot v1 v2) || decide (dot v1 v2 ^ 2 ≤ t ^ 2 * (normSq v1 * normSq v2))

/-! ### Configuration constants (config.py) -/

/-- config.py:232 `DUPLICATE_THRESHOLD = 0.95`. -/
def DUPLICATE_THRESHOLD : ℚ := 95 / 100

/-- config.py:233 `SIMILARITY_THRESHOLD = 0.70`. -/
def SIMILARITY_THRESHOLD : ℚ := 70 / 100

/-- config.py:245 `DB_RETENTION_HOURS = 48`. -/
def DB_RETENTION_HOURS : ℚ := 48

/-! ### The State Store (`database.py`, class `Database`) -/

/-- One entry of the embeddings map (database.py:86-90). -/
structure EmbeddingRecord where
  embedding : List ℚ
  timestamp : ℚ
  preview : String
deriving DecidableEq, Repr

/-- One entry of the message-mapping map (database.py:199-205). -/
structure MessageMapping where
  telegram_message_id : ℤ
  discord_channel_id : ℤ
  discord_message_id : ℤ
  content : Option String
  timestamp : ℚ
deriving DecidableEq, Repr

/-- The three persisted maps of `Database` (database.py:24-26). -/
structure Database where
  processed_ids : List (String × ℚ)
  embeddings : List (String × EmbeddingRecord)
  message_mapping : List (String × MessageMapping)
deriving DecidableEq, Repr

namespace Database

/-- `Database.is_processed` (database.py:49-59). -/
def is_processed (db : Database) (entry_id : String) : Bool :=
  hasKey db.processed_ids entry_id

/-- `Database.mark_processed` (database.py:61-70); `now` stands for
`time.time()`. -/
def mark_processed (db : Database) (entry_id : String) (now : ℚ) : Database :=
  { db with processed_ids := setKey db.processed_ids entry_id now }

/-- `Database.add_embedding` (database.py:72-95).  `hash` abstracts
`hashlib.md5(content).hexdigest()` (a deterministic function of the content);
the record stores the vector, the current time, and the first 100 characters
of the content; the hash key is returned.  Note the Python signature accepts
exactly the positional parameters `content` and `embedding` and no keyword
`entry_id`. -/
def add_embedding (hash : String → String) (db : Database) (content : String)
    (embedding : List ℚ) (now : ℚ) : Database × String :=
  let content_hash := hash content
  let record : EmbeddingRecord := ⟨embedding, now, content.take 100⟩
  ({ db with embeddings := setKey db.embeddings content_hash record }, content_hash)

end Database

/-- Result of `Database.find_similar`.  The Python function returns the triple
`(True, similarity, preview)` on a hit and `(False, 0.0, None)` otherwise; the
floating-point `similarity` score is not representable exactly in ℚ, so the
embedding of the matching record is carried instead — the score is precisely
the real cosine of the query with that vector, which the theorems recover. -/
inductive SimResult where
  | found (embedding : List ℚ) (preview : String)
  | notFound
deriving DecidableEq, Repr

/-- Scan loop of `Database.find_similar` (database.py:113-119): walk the stored
records in insertion order and stop at the first one whose cosine similarity
with the query reaches the threshold. -/
def findSimilarList (q : List ℚ) (t : ℚ) : List (String × EmbeddingRecord) → SimResult
  | [] => .notFound
  | (_, data) :: rest =>
      if cosGe q data.embedding t then .found data.embedding data.preview
      else findSimilarList q t rest

namespace Database

/-- `Database.find_similar` (database.py:97-121).  The early return on an empty
embeddings map coincides with the `[]` case of the scan loop. -/
def find_similar (db : Database) (embedding : List ℚ) (threshold : ℚ) : SimResult :=
  findSimilarList embedding threshold db.embeddings

/-- `Database.store_message_mapping` (database.py:187-207).  Note the Python
signature accepts `telegram_entry_id`, `telegram_message_id`,
`discord_channel_id`, `discord_message_id` and `content` only. -/
def store_message_mapping (db : Database) (telegram_entry_id : String)
    (telegram_message_id discord_channel_id discord_message_id : ℤ)
    (content : Option String) (now : ℚ) : Database :=
  let record : MessageMapping :=
    ⟨telegram_message_id, discord_channel_id, discord_message_id, content, now⟩
  { db with message_mapping := setKey db.message_mapping telegram_entry_id record }

/-- `Database.cleanup_old_entries` (database.py:143-172): delete every
processed id and every embedding whose timestamp is strictly older than
`now - DB_RETENTION_HOURS * 3600`. -/
def cleanup_old_entries (db : Database) (now : ℚ) : Database :=
  let cutoff_time := now - DB_RETENTION_HOURS * 3600
  { db with
    processed_ids := db.processed_ids.filter (fun p => !decide (p.2 < cutoff_time)),
    embeddings := db.embeddings.filter (fun p => !decide (p.2.timestamp < cutoff_time)) }

end Database

/-! ### Similarity-classification stage of `process_entry` (main.py:168-233) -/

/-- Outcome of the duplicate/similar classification stage: `disposition = none`
means the item was discarded as an exact duplicate; `disposition = some c`
means it proceeds towards publication with category `c`.
`classifierInvoked` records whether `self.ollama.categorize` was called, and
`duplicatesIncrement` the amount added to `stats['duplicates']`. -/
structure ClassifyOutcome where
  disposition : Option String
  classifierInvoked : Bool
  duplicatesIncrement : ℕ
deriving DecidableEq, Repr

/-- Similarity stage of `NewsAggregatorBot.process_entry` (main.py:168-233):
first a `find_similar` query at `DUPLICATE_THRESHOLD` (hit → discard, count a
duplicate, return), then one at `SIMILARITY_THRESHOLD` (hit → force the fixed
category "ignore", skipping the classifier), otherwise the external
classifier's output (`classifierOutput` stands for
`self.ollama.categorize(combined_content)`) becomes the category. -/
def classifyStage (db : Database) (embedding : List ℚ) (classifierOutput : String) :
    ClassifyOutcome :=
  match db.find_similar embedding DUPLICATE_THRESHOLD with
  | .found _ _ => ⟨none, false, 1⟩
  | .notFound =>
      match db.find_similar embedding SIMILARITY_THRESHOLD with
      | .found _ _ => ⟨some "ignore", false, 0⟩
      | .notFound => ⟨some classifierOutput, true, 0⟩

/-! ### The publish-success commit block of `process_entry` (main.py:250-304)

Python raises `TypeError` when a call passes a keyword argument that the
callee's signature does not declare.  The call sites in `main.py` pass keyword
arguments that the `Database` methods in `database.py` do not accept, which is
what the following parameter/keyword lists record. -/

/-- Parameters of `Database.add_embedding` (database.py:72): `content`,
`embedding` (besides `self`). -/
def add_embedding_param_names : List String := ["content", "embedding"]

/-- Keyword arguments of the calls `self.db.add_embedding(..., entry_id=entry_id)`
at main.py:257 and main.py:259. -/
def add_embedding_call_kwargs : List String := ["entry_id"]

/-- Parameters of `Database.store_message_mapping` (database.py:187). -/
def store_message_mapping_param_names : List String :=
  ["telegram_entry_id", "telegram_message_id", "discord_channel_id",
   "discord_message_id", "content"]

/-- Keyword arguments of the call at main.py:275-284, which also passes
`source_url`, `video_urls` and `category`. -/
def store_message_mapping_call_kwargs : List String :=
  ["telegram_entry_id", "telegram_message_id", "discord_channel_id",
   "discord_message_id", "content", "source_url", "video_urls", "category"]

/-- A Python call succeeds (does not raise `TypeError`) iff every keyword
argument it passes is declared by the callee. -/
def acceptsKwargs (paramNames kwargNames : List String) : Bool :=
  kwargNames.all (fun k => paramNames.contains k)

/-- State and return value after the `if success:` block of `process_entry`. -/
structure PublishCommitResult where
  db : Database
  returnValue : Bool
deriving DecidableEq, Repr

/-- The `if success:` commit block of `process_entry` (main.py:250-304) run
under the surrounding `except Exception` handler (main.py:320-330).
`content` is the content whose embedding would be stored (the OCR-merged
combined content when OCR text is present, main.py:254-259); `mark_processed`
(main.py:253) always executes and persists first; the subsequent
`add_embedding` call passes the keyword argument `entry_id`, which
`Database.add_embedding` does not declare, so it raises `TypeError` and the
handler returns `False` — the `store_message_mapping` call (main.py:275-284,
itself passing three further undeclared keywords) is never reached. -/
def afterPublishSuccess (hash : String → String) (db : Database)
    (entry_id content : String) (embedding : List ℚ)
    (telegram_message_id discord_channel_id discord_message_id : ℤ) (now : ℚ) :
    PublishCommitResult :=
  let db1 := db.mark_processed entry_id now
  if acceptsKwargs add_embedding_param_names add_embedding_call_kwargs then
    let db2 := (db1.add_embedding hash content embedding now).1
    if acceptsKwargs store_message_mapping_param_names store_message_mapping_call_kwargs then
      let db3 := db2.store_message_mapping entry_id telegram_message_id
        discord_channel_id discord_message_id (some content) now
      ⟨db3, true⟩
    else ⟨db2, false⟩
  else ⟨db1, false⟩

/-! ### The Retry Queue (`retry_queue.py`) -/

/-- Per-id bookkeeping of a queue entry (retry_queue.py:64-70); the `entry`
payload is recovered from the key. -/
structure RetryInfo where
  retry_count : ℕ
  first_attempt_cycle : ℤ
  last_attempt_cycle : ℤ
deriving DecidableEq, Repr

/-- `RetryQueue` state (retry_queue.py:12-24). -/
structure RetryQueue where
  max_retries : ℕ
  retry_delay_cycles : ℤ
  queue : List (String × RetryInfo)
  current_cycle : ℤ
deriving DecidableEq, Repr

namespace RetryQueue

/-- `RetryQueue.add_entry` (retry_queue.py:46-73): an id already queued has its
`retry_count` incremented and `last_attempt_cycle` refreshed; a new id starts
at `retry_count = 1`. -/
def add_entry (q : RetryQueue) (entry_id : String) : RetryQueue :=
  match getKey? q.queue entry_id with
  | some info =>
      let info' : RetryInfo :=
        { info with retry_count := info.retry_count + 1,
                    last_attempt_cycle := q.current_cycle }
      { q with queue := setKey q.queue entry_id info' }
  | none =>
      let info0 : RetryInfo := ⟨1, q.current_cycle, q.current_cycle⟩
      { q with queue := setKey q.queue entry_id info0 }

/-- `RetryQueue.remove_entry` (retry_queue.py:103-119); the `reason` argument
is only logged, so it is not part of the state transition. -/
def remove_entry (q : RetryQueue) (entry_id : String) : RetryQueue :=
  { q with queue := eraseKey q.queue entry_id }

end RetryQueue

/-- Result of one `get_entries_to_retry` call: the ids collected for retry,
the surviving queue, and the `(entry_id, reason)` pairs passed to
`remove_entry` during the scan. -/
structure RetryPollResult where
  toRetry : List String
  queue : List (String × RetryInfo)
  removed : List (String × String)
deriving DecidableEq, Repr

/-- Loop of `RetryQueue.get_entries_to_retry` (retry_queue.py:84-99): iterate
over a snapshot of the queue; an entry over `max_retries` is removed with
reason "max_retries_exceeded"; an entry whose last attempt is at least
`retry_delay_cycles` cycles old is collected for retry; others are skipped. -/
def getEntriesLoop (max_retries : ℕ) (retry_delay_cycles current_cycle : ℤ) :
    List (String × RetryInfo) → RetryPollResult
  | [] => ⟨[], [], []⟩
  | (entry_id, info) :: rest =>
      let res := getEntriesLoop max_retries retry_delay_cycles current_cycle rest
      if info.retry_count > max_retries then
        ⟨res.toRetry, res.queue, (entry_id, "max_retries_exceeded") :: res.removed⟩
      else if current_cycle - info.last_attempt_cycle ≥ retry_delay_cycles then
        ⟨entry_id :: res.toRetry, (entry_id, info) :: res.queue, res.removed⟩
      else
        ⟨res.toRetry, (entry_id, info) :: res.queue, res.removed⟩

namespace RetryQueue

/-- `RetryQueue.get_entries_to_retry` (retry_queue.py:75-101). -/
def get_entries_to_retry (q : RetryQueue) :
    List String × RetryQueue × List (String × String) :=
  let res := getEntriesLoop q.max_retries q.retry_delay_cycles q.current_cycle q.queue
  (res.toRetry, { q with queue := res.queue }, res.removed)

/-- `RetryQueue.increment_cycle` (retry_queue.py:121-123). -/
def increment_cycle (q : RetryQueue) : RetryQueue :=
  { q with current_cycle := q.current_cycle + 1 }

/-- `RetryQueue.cleanup_old_entries` (retry_queue.py:148-167): drop entries
whose age in cycles exceeds `max_age_hours * 12`. -/
def cleanup_old_entries (q : RetryQueue) (max_age_hours : ℤ) : RetryQueue :=
  let max_cycles := max_age_hours * 12
  let kept := q.queue.filter
    (fun p => !decide (q.current_cycle - p.2.first_attempt_cycle > max_cycles))
  { q with queue := kept }

end RetryQueue

/-! ### Publish/idempotency skeleton of the batch cycle (main.py) -/

/-- Abstract view of one collected item for the idempotency argument:
`reachesPublish` says the item survives the content/duplicate/similarity
checks up to the `post_message` call, and `publishOk` is the publisher's
verdict for this attempt. -/
structure CycleEntry where
  id : String
  reachesPublish : Bool
  publishOk : Bool
deriving DecidableEq, Repr

/-- Shared pipeline state: the Store, the retry queue, and the log of
successfully published artifact ids (one per successful `post_message`). -/
structure PipeState where
  db : Database
  retry : RetryQueue
  published : List String
deriving DecidableEq, Repr

/-- Publish-relevant skeleton of `process_entry` (main.py:108-330): an already
processed id returns `False` immediately (main.py:126-128) with no publish; an
item that reaches the publisher and succeeds is published and immediately
marked processed (main.py:241-253) — the function then returns `False`
anyway because the subsequent `add_embedding` call raises `TypeError` (see
`afterPublishSuccess`); every other path publishes nothing and leaves the
ledger unchanged. -/
def processEntryStep (s : PipeState) (e : CycleEntry) (now : ℚ) : PipeState × Bool :=
  if s.db.is_processed e.id then (s, false)
  else if e.reachesPublish && e.publishOk then
    ({ s with db := s.db.mark_processed e.id now,
              published := s.published ++ [e.id] }, false)
  else (s, false)

/-- Loop body of `poll_cycle` (main.py:420-435): an already-processed id is
skipped and purged from the retry queue (reason "already_processed"),
otherwise `process_entry` runs and, had it returned `True`, the id would be
removed from the retry queue (reason "success"). -/
def cycleStep (s : PipeState) (e : CycleEntry) (now : ℚ) : PipeState :=
  if s.db.is_processed e.id then
    { s with retry := s.retry.remove_entry e.id }
  else
    let step := processEntryStep s e now
    if step.2 then { step.1 with retry := step.1.retry.remove_entry e.id } else step.1

/-- Sequential processing of one cycle's sorted entry list (main.py:417-435). -/
def runCycle (s : PipeState) (entries : List CycleEntry) (now : ℚ) : PipeState :=
  entries.foldl (fun st e => cycleStep st e now) s

/-- Idempotency invariant of the pipeline state: no id has been published
more than once, and every published id is recorded in the ledger. -/
def PublishInv (s : PipeState) : Prop :=
  ∀ id, s.published.count id ≤ 1
    ∧ (1 ≤ s.published.count id → s.db.is_processed id = true)

/-! ### Entry collection and ordering of `poll_cycle` (main.py:368-411) -/

/-- Timestamp-bearing view of a collected entry for the sorting step. -/
structure PollEntry where
  id : String
  timestamp : Option ℚ
  pub_date : Option String
deriving DecidableEq, Repr

/-- `get_entry_timestamp` (main.py:395-408), given the RSS date parser
`parse` (`parsedate_to_datetime(s).timestamp()`; `none` = parsing raised, in
which case the code returns 0).  A present-but-zero `timestamp` value is falsy
in Python and falls through exactly like an absent one, and an empty
`pub_date` string likewise. -/
def get_entry_timestamp (parse : String → Option ℚ) (e : PollEntry) : ℚ :=
  if e.timestamp.getD 0 ≠ 0 then e.timestamp.getD 0
  else if (e.pub_date.getD "") ≠ "" then (parse (e.pub_date.getD "")).getD 0
  else 0

/-- Collection and ordering of `poll_cycle` (main.py:368-411): retry-queue
entries first, then the polled RSS and Telegram entries, then
`all_entries.sort(key=get_entry_timestamp, reverse=False)` — a stable
ascending sort, modelled by insertion sort (also stable, hence the same
output). -/
def collectAndSortEntries (parse : String → Option ℚ)
    (retry_entries rss_entries telegram_entries : List PollEntry) : List PollEntry :=
  List.insertionSort
    (fun a b => get_entry_timestamp parse a ≤ get_entry_timestamp parse b)
    (retry_entries ++ rss_entries ++ telegram_entries)

/-! ### The Vote Tracker (`vote_tracker.py`) -/

/-- A Python value reaching `add_vote` as a message or voter id: Discord ids
arrive both as integers and as strings. -/
inductive PyVal where
  | int (n : ℤ)
  | str (s : String)
deriving DecidableEq, Repr

/-- The `str(...)` coercion applied at vote_tracker.py:59-60. -/
def pyStrOf : PyVal → String
  | .int n => toString n
  | .str s => s

/-- A vote record (vote_tracker.py:63-71): the voter list, the creation time,
and the entry metadata merged into the record by `dict.update` at creation
(`entry_data` carries entry id, content, category and Discord ids — fields
disjoint from `voters`/`timestamp`, so a separate field is a faithful model).
`M` is the type of that metadata. -/
structure VoteRecord (M : Type) where
  voters : List String
  timestamp : ℚ
  metadata : Option M
deriving DecidableEq, Repr

/-- Result of `add_vote`: the new votes map and the returned pair
`(vote_count, is_duplicate_vote)`. -/
structure AddVoteResult (M : Type) where
  votes : List (String × VoteRecord M)
  count : ℕ
  is_duplicate_vote : Bool
deriving DecidableEq, Repr

/-- `VoteTracker.add_vote` (vote_tracker.py:45-85): both ids are coerced to
strings; a missing record is created with empty voters and the metadata, then
the voter is appended; a voter already present returns the unchanged count
with `is_duplicate_vote = True`; a fresh voter is appended and the new count
returned. -/
def add_vote {M : Type} (votes : List (String × VoteRecord M))
    (discord_message_id voter_user_id : PyVal) (entry_data : Option M) (now : ℚ) :
    AddVoteResult M :=
  let message_key := pyStrOf discord_message_id
  let voter_id := pyStrOf voter_user_id
  match getKey? votes message_key with
  | none =>
      let rec0 : VoteRecord M := ⟨[voter_id], now, entry_data⟩
      ⟨setKey votes message_key rec0, 1, false⟩
  | some r =>
      if voter_id ∈ r.voters then
        ⟨votes, r.voters.length, true⟩
      else
        let r' : VoteRecord M := { r with voters := r.voters ++ [voter_id] }
        ⟨setKey votes message_key r', r.voters.length + 1, false⟩

/-! ### The Feedback Archive (`removed_entries.py`) -/

/-- One archive entry (removed_entries.py:64-73); `content` is the Python
string as a character sequence (truncation is per character). -/
structure RemovedEntry where
  entry_id : String
  content : List Char
  category : String
  removed_at : ℚ
  voter_ids : List String
deriving DecidableEq, Repr

/-- `RemovedEntriesDB.get_recent_removed_entries` (removed_entries.py:86-103):
sort by `removed_at`, newest first (`sorted(..., reverse=True)` is a stable
descending sort, modelled by insertion sort with the reversed comparison) and
keep the first `limit` entries. -/
def get_recent_removed_entries (entries : List RemovedEntry) (limit : ℕ) :
    List RemovedEntry :=
  (List.insertionSort (fun a b => b.removed_at ≤ a.removed_at) entries).take limit

/-- `RemovedEntriesDB.get_content_previews` (removed_entries.py:206-230): one
preview per recent entry; content longer than `max_preview_length` is cut to
its first `max_preview_length` characters with "..." appended. -/
def get_content_previews (entries : List RemovedEntry)
    (limit max_preview_length : ℕ) : List (List Char) :=
  (get_recent_removed_entries entries limit).map (fun e =>
    if e.content.length > max_preview_length then
      e.content.take max_preview_length ++ ['.', '.', '.']
    else e.content)

/-! ### Supporting lemmas -/

theorem getKey?_setKey_self {β : Type} (l : List (String × β)) (k : String) (v : β) :
    getKey? (setKey l k v) k = some v := by
  induction l with
  | nil => simp [setKey, getKey?]
  | cons p rest ih =>
      by_cases h : p.1 = k
      · simp [setKey, getKey?, h]
      · simp [setKey, getKey?, h, ih]

theorem getKey?_setKey_ne {β : Type} (l : List (String × β)) (k k' : String) (v : β)
    (h : k ≠ k') : getKey? (setKey l k v) k' = getKey? l k' := by
  induction l with
  | nil => simp [setKey, getKey?, h]
  | cons p rest ih =>
      by_cases hp : p.1 = k
      · simp [setKey, getKey?, hp, h]
      · simp only [setKey, if_neg hp, getKey?]
        by_cases hp' : p.1 = k' <;> simp [hp', ih]

theorem getKey?_eraseKey_ne {β : Type} (l : List (String × β)) (k k' : String)
    (h : k ≠ k') : getKey? (eraseKey l k) k' = getKey? l k' := by
  induction l with
  | nil => simp [eraseKey]
  | cons p rest ih =>
      unfold eraseKey at ih ⊢
      rw [List.filter_cons]
      by_cases hp : p.1 = k
      · have hpk' : ¬p.1 = k' := by rw [hp]; exact h
        simp [hp, getKey?, hpk', h, ih]
      · by_cases hp' : p.1 = k' <;> simp [hp, hp', getKey?, ih, h, Ne.symm h]

theorem getKey?_eraseKey_self {β : Type} (l : List (String × β)) (k : String) :
    getKey? (eraseKey l k) k = none := by
  induction l with
  | nil => simp [eraseKey, getKey?]
  | cons p rest ih =>
      unfold eraseKey at ih ⊢
      rw [List.filter_cons]
      by_cases hp : p.1 = k
      · simp [hp, ih]
      · simp [hp, getKey?, ih]

theorem normSq_nonneg (v : List ℚ) : 0 ≤ normSq v := by
  induction v with
  | nil => simp [normSq, dot]
  | cons a as ih =>
      have : normSq (a :: as) = a * a + normSq as := rfl
      rw [this]
      nlinarith [mul_self_nonneg a]

theorem cosGe_iff (v1 v2 : List ℚ) (t : ℚ) :
    cosGe v1 v2 t = true ↔ CosSimGe v1 v2 t := by
  have h1 : (0 : ℚ) ≤ normSq v1 := normSq_nonneg v1
  have h2 : (0 : ℚ) ≤ normSq v2 := normSq_nonneg v2
  unfold cosGe CosSimGe
  by_cases hz : normSq v1 = 0 ∨ normSq v2 = 0
  · have hden : Real.sqrt (normSq v1) * Real.sqrt (normSq v2) = 0 := by
      rcases hz with h | h <;> simp [h]
    rw [if_pos hz, hden, div_zero]
    simp [Rat.cast_nonpos]
  · push_neg at hz
    have hp1 : (0 : ℚ) < normSq v1 := lt_of_le_of_ne h1 (Ne.symm hz.1)
    have hp2 : (0 : ℚ) < normSq v2 := lt_of_le_of_ne h2 (Ne.symm hz.2)
    have hs1 : (0 : ℝ) < Real.sqrt (normSq v1) := Real.sqrt_pos.mpr (by exact_mod_cast hp1)
    have hs2 : (0 : ℝ) < Real.sqrt (normSq v2) := Real.sqrt_pos.mpr (by exact_mod_cast hp2)
    have hd : (0 : ℝ) < Real.sqrt (normSq v1) * Real.sqrt (normSq v2) := mul_pos hs1 hs2
    have hq1 : Real.sqrt (normSq v1) ^ 2 = ((normSq v1 : ℚ) : ℝ) :=
      Real.sq_sqrt (by exact_mod_cast h1)
    have hq2 : Real.sqrt (normSq v2) ^ 2 = ((normSq v2 : ℚ) : ℝ) :=
      Real.sq_sqrt (by exact_mod_cast h2)
    rw [if_neg (by push_neg; exact hz), le_div_iff₀ hd]
    set S : ℝ := Real.sqrt (normSq v1) * Real.sqrt (normSq v2) with hSdef
    have hS2 : S ^ 2 = ((normSq v1 : ℚ) : ℝ) * ((normSq v2 : ℚ) : ℝ) := by
      rw [hSdef, mul_pow, hq1, hq2]
    by_cases ht : 0 ≤ t
    · have htR : (0 : ℝ) ≤ (t : ℝ) := by exact_mod_cast ht
      have hA : (0 : ℝ) ≤ (t : ℝ) * S := mul_nonneg htR hd.le
      rw [if_pos ht]
      simp only [Bool.and_eq_true, decide_eq_true_eq]
      constructor
      · rintro ⟨hd0, hsq⟩
        have hd0R : (0 : ℝ) ≤ ((dot v1 v2 : ℚ) : ℝ) := by exact_mod_cast hd0
        have hsqR : ((t : ℝ) * S) ^ 2 ≤ ((dot v1 v2 : ℚ) : ℝ) ^ 2 := by
          rw [mul_pow, hS2]
          exact_mod_cast hsq
        exact (pow_le_pow_iff_left₀ hA hd0R two_ne_zero).mp hsqR
      · intro h
        have hd0R : (0 : ℝ) ≤ ((dot v1 v2 : ℚ) : ℝ) := le_trans hA h
        refine ⟨by exact_mod_cast hd0R, ?_⟩
        have hsqR : ((t : ℝ) * S) ^ 2 ≤ ((dot v1 v2 : ℚ) : ℝ) ^ 2 :=
          pow_le_pow_left₀ hA h 2
        rw [mul_pow, hS2] at hsqR
        exact_mod_cast hsqR
    · have htR : (t : ℝ) < 0 := by exact_mod_cast not_le.mp ht
      have hAneg : (t : ℝ) * S < 0 := mul_neg_of_neg_of_pos htR hd
      rw [if_neg ht]
      simp only [Bool.or_eq_true, decide_eq_true_eq]
      constructor
      · rintro (hd0 | hsq)
        · have hd0R : (0 : ℝ) ≤ ((dot v1 v2 : ℚ) : ℝ) := by exact_mod_cast hd0
          linarith
        · by_cases hd0 : (0 : ℚ) ≤ dot v1 v2
          · have hd0R : (0 : ℝ) ≤ ((dot v1 v2 : ℚ) : ℝ) := by exact_mod_cast hd0
            linarith
          · push_neg at hd0
            have hd0R : ((dot v1 v2 : ℚ) : ℝ) < 0 := by exact_mod_cast hd0
            have h1R : (0 : ℝ) ≤ -((dot v1 v2 : ℚ) : ℝ) := by linarith
            have h2R : (0 : ℝ) ≤ -((t : ℝ) * S) := by linarith
            have hsqR : (-((dot v1 v2 : ℚ) : ℝ)) ^ 2 ≤ (-((t : ℝ) * S)) ^ 2 := by
              rw [neg_sq, neg_sq, mul_pow, hS2]
              exact_mod_cast hsq
            have := (pow_le_pow_iff_left₀ h1R h2R two_ne_zero).mp hsqR
            linarith
      · intro h
        by_cases hd0 : (0 : ℚ) ≤ dot v1 v2
        · exact Or.inl hd0
        · push_neg at hd0
          have hd0R : ((dot v1 v2 : ℚ) : ℝ) < 0 := by exact_mod_cast hd0
          refine Or.inr ?_
          have h1R : (0 : ℝ) ≤ -((dot v1 v2 : ℚ) : ℝ) := by linarith
          have hsqR : (-((dot v1 v2 : ℚ) : ℝ)) ^ 2 ≤ (-((t : ℝ) * S)) ^ 2 :=
            pow_le_pow_left₀ h1R (by linarith) 2
          rw [neg_sq, neg_sq, mul_pow, hS2] at hsqR
          exact_mod_cast hsqR

theorem findSimilarList_notFound_iff (q : List ℚ) (t : ℚ)
    (l : List (String × EmbeddingRecord)) :
    findSimilarList q t l = .notFound ↔ ∀ p ∈ l, cosGe q p.2.embedding t = false := by
  induction l with
  | nil => simp [findSimilarList]
  | cons p rest ih =>
      by_cases hc : cosGe q p.2.embedding t = true
      · simp only [findSimilarList, if_pos hc]
        constructor
        · intro h; cases h
        · intro h
          have := h p (List.mem_cons_self p rest)
          rw [hc] at this
          cases this
      · have hcf : cosGe q p.2.embedding t = false := by
          cases hb : cosGe q p.2.embedding t
          · rfl
          · exact absurd hb hc
        simp [findSimilarList, hcf, ih]

theorem findSimilarList_found_iff (q : List ℚ) (t : ℚ)
    (l : List (String × EmbeddingRecord)) (v : List ℚ) (pv : String) :
    findSimilarList q t l = .found v pv ↔
      ∃ l₁ k r l₂, l = l₁ ++ (k, r) :: l₂ ∧ r.embedding = v ∧ r.preview = pv ∧
        cosGe q v t = true ∧ ∀ p ∈ l₁, cosGe q p.2.embedding t = false := by
  induction l with
  | nil =>
      constructor
      · intro h; cases h
      · rintro ⟨l₁, k, r, l₂, hl, -⟩
        exact absurd hl (by simp)
  | cons p rest ih =>
      by_cases hc : cosGe q p.2.embedding t = true
      · simp only [findSimilarList, if_pos hc]
        constructor
        · intro h
          obtain ⟨he, hp⟩ : p.2.embedding = v ∧ p.2.preview = pv := by
            simpa [SimResult.found.injEq] using h
          exact ⟨[], p.1, p.2, rest, by simp, he, hp, he ▸ hc, by simp⟩
        · rintro ⟨l₁, k, r, l₂, hl, he, hp, hcv, hall⟩
          cases l₁ with
          | nil =>
              simp only [List.nil_append, List.cons.injEq] at hl
              obtain ⟨hpk, -⟩ := hl
              have h2 : p.2 = r := by rw [hpk]
              rw [h2, he, hp]
          | cons a l₁' =>
              simp only [List.cons_append, List.cons.injEq] at hl
              obtain ⟨hpa, -⟩ := hl
              have : cosGe q a.2.embedding t = false := hall a (List.mem_cons_self a l₁')
              rw [← hpa] at this
              rw [this] at hc
              cases hc
      · have hcf : cosGe q p.2.embedding t = false := by
          cases hb : cosGe q p.2.embedding t
          · rfl
          · exact absurd hb hc
        simp only [findSimilarList, hcf, Bool.false_eq_true, if_false]
        rw [ih]
        constructor
        · rintro ⟨l₁, k, r, l₂, hl, he, hp, hcv, hall⟩
          refine ⟨p :: l₁, k, r, l₂, by rw [hl, List.cons_append], he, hp, hcv, ?_⟩
          intro x hx
          rcases List.mem_cons.mp hx with h1 | h2
          · rw [h1]; exact hcf
          · exact hall x h2
        · rintro ⟨l₁, k, r, l₂, hl, he, hp, hcv, hall⟩
          cases l₁ with
          | nil =>
              simp only [List.nil_append, List.cons.injEq] at hl
              obtain ⟨hpk, -⟩ := hl
              have h2 : p.2 = r := by rw [hpk]
              rw [h2, he] at hcf
              rw [hcv] at hcf
              cases hcf
          | cons a l₁' =>
              simp only [List.cons_append, List.cons.injEq] at hl
              obtain ⟨-, hrest⟩ := hl
              exact ⟨l₁', k, r, l₂, hrest, he, hp, hcv,
                fun x hx => hall x (List.mem_cons_of_mem a hx)⟩

theorem cosGe_false_iff (v1 v2 : List ℚ) (t : ℚ) :
    cosGe v1 v2 t = false ↔ ¬CosSimGe v1 v2 t := by
  constructor
  · intro h hc
    rw [(cosGe_iff _ _ _).mpr hc] at h
    cases h
  · intro h
    cases hb : cosGe v1 v2 t
    · rfl
    · exact absurd ((cosGe_iff _ _ _).mp hb) h

theorem CosSimGe_mono (a b : List ℚ) (t t' : ℚ) (h : t' ≤ t) (hc : CosSimGe a b t) :
    CosSimGe a b t' :=
  le_trans (by exact_mod_cast h) hc

theorem find_similar_notFound_iff (db : Database) (q : List ℚ) (t : ℚ) :
    db.find_similar q t = .notFound ↔
      ∀ p ∈ db.embeddings, ¬CosSimGe q p.2.embedding t := by
  rw [Database.find_similar, findSimilarList_notFound_iff]
  constructor
  · intro h p hp
    exact (cosGe_false_iff _ _ _).mp (h p hp)
  · intro h p hp
    exact (cosGe_false_iff _ _ _).mpr (h p hp)

theorem exists_of_find_similar_found (db : Database) (q : List ℚ) (t : ℚ)
    (v : List ℚ) (pv : String) (h : db.find_similar q t = .found v pv) :
    ∃ p ∈ db.embeddings, CosSimGe q p.2.embedding t := by
  rw [Database.find_similar, findSimilarList_found_iff] at h
  obtain ⟨l₁, k, r, l₂, h1, h2, -, h4, -⟩ := h
  refine ⟨(k, r), ?_, ?_⟩
  · rw [h1]
    exact List.mem_append_right _ (List.mem_cons_self _ _)
  · show CosSimGe q r.embedding t
    rw [h2]
    exact (cosGe_iff _ _ _).mp h4

/-! ### Claim theorems -/

/-- C3: for every query vector and threshold, `find_similar` scans the stored
embedding records in insertion order and returns the positive result exactly
for the first record whose cosine similarity `dot(a,b)/(‖a‖·‖b‖)` with the
query is at least the threshold — not the globally closest one — carrying that
record's vector (whose real cosine with the query is the returned score) and
preview; when the index is empty or no record reaches the threshold, it
returns the negative result (Python's `(False, 0.0, None)`); and the cosine
score is 0 whenever either vector has zero norm. -/
theorem find_similar_first_match (db : Database) (q : List ℚ) (t : ℚ) :
    (∀ v pv, db.find_similar q t = .found v pv ↔
      ∃ l₁ k r l₂, db.embeddings = l₁ ++ (k, r) :: l₂ ∧ r.embedding = v ∧
        r.preview = pv ∧ CosSimGe q v t ∧ ∀ p ∈ l₁, ¬CosSimGe q p.2.embedding t)
    ∧ (db.find_similar q t = .notFound ↔
        ∀ p ∈ db.embeddings, ¬CosSimGe q p.2.embedding t)
    ∧ (db.embeddings = [] → db.find_similar q t = .notFound)
    ∧ (∀ a b : List ℚ, normSq a = 0 ∨ normSq b = 0 →
        ((dot a b : ℚ) : ℝ) / (Real.sqrt (normSq a) * Real.sqrt (normSq b)) = 0) := by
  refine ⟨?_, find_similar_notFound_iff db q t, ?_, ?_⟩
  · intro v pv
    rw [Database.find_similar, findSimilarList_found_iff]
    constructor
    · rintro ⟨l₁, k, r, l₂, h1, h2, h3, h4, h5⟩
      exact ⟨l₁, k, r, l₂, h1, h2, h3, (cosGe_iff _ _ _).mp h4,
        fun p hp => (cosGe_false_iff _ _ _).mp (h5 p hp)⟩
    · rintro ⟨l₁, k, r, l₂, h1, h2, h3, h4, h5⟩
      exact ⟨l₁, k, r, l₂, h1, h2, h3, (cosGe_iff _ _ _).mpr h4,
        fun p hp => (cosGe_false_iff _ _ _).mpr (h5 p hp)⟩
  · intro h
    rw [Database.find_similar, h]
    rfl
  · intro a b hz
    have hden : Real.sqrt (normSq a) * Real.sqrt (normSq b) = 0 := by
      rcases hz with h | h <;> simp [h]
    rw [hden, div_zero]

theorem find_similar_first_match_witness :
    Database.find_similar ⟨[], [], []⟩ [1] (95 / 100) = .notFound :=
  (find_similar_first_match ⟨[], [], []⟩ [1] (95 / 100)).2.2.1 rfl

/-- C2: on an item with a computed embedding, a stored embedding at cosine
similarity ≥ 0.95 discards the item (no disposition, classifier not invoked,
duplicates counter incremented); otherwise a stored embedding at similarity
≥ 0.70 forces the fixed category "ignore" without invoking the classifier;
otherwise the external classifier's output is the disposition. -/
theorem classifyStage_two_thresholds (db : Database) (emb : List ℚ) (cls : String) :
    ((∃ p ∈ db.embeddings, CosSimGe emb p.2.embedding DUPLICATE_THRESHOLD) →
        classifyStage db emb cls = ⟨none, false, 1⟩)
    ∧ ((¬∃ p ∈ db.embeddings, CosSimGe emb p.2.embedding DUPLICATE_THRESHOLD) →
        (∃ p ∈ db.embeddings, CosSimGe emb p.2.embedding SIMILARITY_THRESHOLD) →
        classifyStage db emb cls = ⟨some "ignore", false, 0⟩)
    ∧ ((¬∃ p ∈ db.embeddings, CosSimGe emb p.2.embedding SIMILARITY_THRESHOLD) →
        classifyStage db emb cls = ⟨some cls, true, 0⟩) := by
  have hts : SIMILARITY_THRESHOLD ≤ DUPLICATE_THRESHOLD := by
    norm_num [SIMILARITY_THRESHOLD, DUPLICATE_THRESHOLD]
  cases hdup : db.find_similar emb DUPLICATE_THRESHOLD with
  | found v pv =>
      refine ⟨fun _ => by simp [classifyStage, hdup], ?_, ?_⟩
      · intro hnd _
        exact absurd (exists_of_find_similar_found db emb _ v pv hdup) hnd
      · intro hns
        obtain ⟨p, hp, hc⟩ := exists_of_find_similar_found db emb _ v pv hdup
        exact absurd ⟨p, hp, CosSimGe_mono _ _ _ _ hts hc⟩ hns
  | notFound =>
      have hall := (find_similar_notFound_iff db emb DUPLICATE_THRESHOLD).mp hdup
      cases hsim : db.find_similar emb SIMILARITY_THRESHOLD with
      | found v pv =>
          refine ⟨?_, fun _ _ => by simp [classifyStage, hdup, hsim], ?_⟩
          · rintro ⟨p, hp, hc⟩
            exact absurd hc (hall p hp)
          · intro hns
            exact absurd (exists_of_find_similar_found db emb _ v pv hsim) hns
      | notFound =>
          refine ⟨?_, ?_, fun _ => by simp [classifyStage, hdup, hsim]⟩
          · rintro ⟨p, hp, hc⟩
            exact absurd hc (hall p hp)
          · rintro - ⟨p, hp, hc⟩
            exact absurd hc
              ((find_similar_notFound_iff db emb SIMILARITY_THRESHOLD).mp hsim p hp)

theorem classifyStage_two_thresholds_witness :
    classifyStage ⟨[], [("h", ⟨[1, 0], 0, "p"⟩)], []⟩ [1, 0] "news" = ⟨none, false, 1⟩
    ∧ classifyStage ⟨[], [("h", ⟨[4, 3], 0, "p"⟩)], []⟩ [1, 0] "news"
        = ⟨some "ignore", false, 0⟩
    ∧ classifyStage ⟨[], [], []⟩ [1, 0] "news" = ⟨some "news", true, 0⟩ := by
  refine ⟨?_, ?_, ?_⟩
  · refine (classifyStage_two_thresholds _ _ _).1 ⟨("h", ⟨[1, 0], 0, "p"⟩), by simp, ?_⟩
    exact (cosGe_iff _ _ _).mp (by norm_num [cosGe, normSq, dot, DUPLICATE_THRESHOLD])
  · refine (classifyStage_two_thresholds _ _ _).2.1 ?_
      ⟨("h", ⟨[4, 3], 0, "p"⟩), by simp, ?_⟩
    · rintro ⟨p, hp, hc⟩
      simp only [List.mem_singleton] at hp
      subst hp
      have hf : cosGe [1, 0] [4, 3] DUPLICATE_THRESHOLD = false := by
        norm_num [cosGe, normSq, dot, DUPLICATE_THRESHOLD]
      rw [(cosGe_iff _ _ _).mpr hc] at hf
      cases hf
    · exact (cosGe_iff _ _ _).mp (by norm_num [cosGe, normSq, dot, SIMILARITY_THRESHOLD])
  · refine (classifyStage_two_thresholds _ _ _).2.2 ?_
    rintro ⟨p, hp, -⟩
    simp at hp

/-- C1: the claim that on publish success all three commits (ledger mark,
embedding record, message mapping) complete before `process_entry` returns
fails on the code: `mark_processed` runs, but the `add_embedding` call passes
the undeclared keyword argument `entry_id` and raises `TypeError`, so neither
the embedding nor the message mapping is stored and the function returns
`False` — this theorem evaluates the commit block and shows only the ledger
mark happens. -/
theorem afterPublishSuccess_only_marks (hash : String → String) (db : Database)
    (entry_id content : String) (embedding : List ℚ)
    (tmid dcid dmid : ℤ) (now : ℚ) :
    afterPublishSuccess hash db entry_id content embedding tmid dcid dmid now
      = ⟨db.mark_processed entry_id now, false⟩
    ∧ (afterPublishSuccess hash db entry_id content embedding tmid dcid dmid now).db.embeddings
      = db.embeddings
    ∧ (afterPublishSuccess hash db entry_id content embedding tmid dcid dmid
        now).db.message_mapping = db.message_mapping
    ∧ (afterPublishSuccess hash db entry_id content embedding tmid dcid dmid
        now).db.is_processed entry_id = true := by
  have hk : acceptsKwargs add_embedding_param_names add_embedding_call_kwargs = false := by
    decide
  have h1 : afterPublishSuccess hash db entry_id content embedding tmid dcid dmid now
      = ⟨db.mark_processed entry_id now, false⟩ := by
    simp [afterPublishSuccess, hk]
  refine ⟨h1, ?_, ?_, ?_⟩
  · rw [h1]
    rfl
  · rw [h1]
    rfl
  · rw [h1]
    simp [Database.mark_processed, Database.is_processed, hasKey, getKey?_setKey_self]

/-- C9: after `cleanup_old_entries`, a ledger entry or embedding record
survives (unchanged) exactly when its timestamp is at least
`now - DB_RETENTION_HOURS * 3600`; every strictly older entry is absent. -/
theorem cleanup_old_entries_retention (db : Database) (now : ℚ) :
    (∀ id ts, (id, ts) ∈ (db.cleanup_old_entries now).processed_ids ↔
        (id, ts) ∈ db.processed_ids ∧ now - DB_RETENTION_HOURS * 3600 ≤ ts)
    ∧ (∀ h r, (h, r) ∈ (db.cleanup_old_entries now).embeddings ↔
        (h, r) ∈ db.embeddings ∧ now - DB_RETENTION_HOURS * 3600 ≤ r.timestamp)
    ∧ (∀ id ts, ts < now - DB_RETENTION_HOURS * 3600 →
        (id, ts) ∉ (db.cleanup_old_entries now).processed_ids)
    ∧ (∀ h r, r.timestamp < now - DB_RETENTION_HOURS * 3600 →
        (h, r) ∉ (db.cleanup_old_entries now).embeddings) := by
  have hp : ∀ id ts, (id, ts) ∈ (db.cleanup_old_entries now).processed_ids ↔
      (id, ts) ∈ db.processed_ids ∧ now - DB_RETENTION_HOURS * 3600 ≤ ts := by
    intro id ts
    simp [Database.cleanup_old_entries, List.mem_filter, not_lt]
  have he : ∀ h r, (h, r) ∈ (db.cleanup_old_entries now).embeddings ↔
      (h, r) ∈ db.embeddings ∧ now - DB_RETENTION_HOURS * 3600 ≤ r.timestamp := by
    intro h r
    simp [Database.cleanup_old_entries, List.mem_filter, not_lt]
  refine ⟨hp, he, ?_, ?_⟩
  · intro id ts hlt hmem
    have := ((hp id ts).mp hmem).2
    linarith
  · intro h r hlt hmem
    have := ((he h r).mp hmem).2
    linarith

theorem cleanup_old_entries_retention_witness :
    ("old", (0 : ℚ)) ∉ (Database.cleanup_old_entries ⟨[("old", 0)], [], []⟩
      1000000).processed_ids :=
  (cleanup_old_entries_retention ⟨[("old", 0)], [], []⟩ 1000000).2.2.1 "old" 0
    (by norm_num [DB_RETENTION_HOURS])

theorem add_vote_dup_eq {M : Type} (votes : List (String × VoteRecord M))
    (m v : PyVal) (d : Option M) (now : ℚ) (r : VoteRecord M)
    (h : getKey? votes (pyStrOf m) = some r) (hv : pyStrOf v ∈ r.voters) :
    add_vote votes m v d now = ⟨votes, r.voters.length, true⟩ := by
  simp [add_vote, h, hv]

/-- C6: the first `add_vote` on a message creates its record storing the
metadata exactly once (later calls never change an existing record's
metadata); a voter id already present returns `is_duplicate_vote = true` and
an unchanged count and state; a fresh voter id is appended and the new count
returned with the flag clear; consequently every voter id appears at most
once in a record's voters, and the returned count is the length of that
duplicate-free voter list (the number of distinct voters). -/
theorem add_vote_spec {M : Type} (votes : List (String × VoteRecord M))
    (m v : PyVal) (d : Option M) (now : ℚ) :
    (getKey? votes (pyStrOf m) = none →
      add_vote votes m v d now
        = ⟨setKey votes (pyStrOf m) ⟨[pyStrOf v], now, d⟩, 1, false⟩)
    ∧ (∀ r, getKey? votes (pyStrOf m) = some r →
        ∃ r', getKey? (add_vote votes m v d now).votes (pyStrOf m) = some r'
          ∧ r'.metadata = r.metadata)
    ∧ (∀ r, getKey? votes (pyStrOf m) = some r → pyStrOf v ∈ r.voters →
        add_vote votes m v d now = ⟨votes, r.voters.length, true⟩)
    ∧ (∀ r, getKey? votes (pyStrOf m) = some r → pyStrOf v ∉ r.voters →
        add_vote votes m v d now
          = ⟨setKey votes (pyStrOf m) ⟨r.voters ++ [pyStrOf v], r.timestamp, r.metadata⟩,
             r.voters.length + 1, false⟩)
    ∧ ((∀ k r, getKey? votes k = some r → r.voters.Nodup) →
        (∀ k r, getKey? (add_vote votes m v d now).votes k = some r → r.voters.Nodup)
        ∧ ∃ r, getKey? (add_vote votes m v d now).votes (pyStrOf m) = some r
            ∧ (add_vote votes m v d now).count = r.voters.length) := by
  cases h : getKey? votes (pyStrOf m) with
  | none =>
      refine ⟨fun _ => by simp [add_vote, h], ?_, ?_, ?_, ?_⟩
      · intro r hr
        cases hr
      · intro r hr
        cases hr
      · intro r hr
        cases hr
      · intro hnd
        have hstate : (add_vote votes m v d now).votes
            = setKey votes (pyStrOf m) ⟨[pyStrOf v], now, d⟩ := by
          simp [add_vote, h]
        constructor
        · intro k r hk
          rw [hstate] at hk
          by_cases hkk : pyStrOf m = k
          · rw [← hkk, getKey?_setKey_self] at hk
            cases hk
            simp
          · rw [getKey?_setKey_ne _ _ _ _ hkk] at hk
            exact hnd k r hk
        · refine ⟨⟨[pyStrOf v], now, d⟩, ?_, ?_⟩
          · rw [hstate]
            exact getKey?_setKey_self _ _ _
          · simp [add_vote, h]
  | some r0 =>
      by_cases hv : pyStrOf v ∈ r0.voters
      · refine ⟨?_, ?_, ?_, ?_, ?_⟩
        · intro hnone
          cases hnone
        · intro r hr
          obtain rfl := Option.some.inj hr
          refine ⟨r0, ?_, rfl⟩
          have hstate : (add_vote votes m v d now).votes = votes := by
            simp [add_vote, h, hv]
          rw [hstate, h]
        · intro r hr hv'
          obtain rfl := Option.some.inj hr
          simp [add_vote, h, hv]
        · intro r hr hnv
          obtain rfl := Option.some.inj hr
          exact absurd hv hnv
        · intro hnd
          have hstate : add_vote votes m v d now = ⟨votes, r0.voters.length, true⟩ := by
            simp [add_vote, h, hv]
          rw [hstate]
          exact ⟨hnd, r0, h, rfl⟩
      · refine ⟨?_, ?_, ?_, ?_, ?_⟩
        · intro hnone
          cases hnone
        · intro r hr
          obtain rfl := Option.some.inj hr
          refine ⟨⟨r0.voters ++ [pyStrOf v], r0.timestamp, r0.metadata⟩, ?_, rfl⟩
          have hstate : (add_vote votes m v d now).votes
              = setKey votes (pyStrOf m)
                  ⟨r0.voters ++ [pyStrOf v], r0.timestamp, r0.metadata⟩ := by
            simp [add_vote, h, hv]
          rw [hstate]
          exact getKey?_setKey_self _ _ _
        · intro r hr hv'
          obtain rfl := Option.some.inj hr
          exact absurd hv' hv
        · intro r hr hnv
          obtain rfl := Option.some.inj hr
          simp [add_vote, h, hv]
        · intro hnd
          have hstate : (add_vote votes m v d now).votes
              = setKey votes (pyStrOf m)
                  ⟨r0.voters ++ [pyStrOf v], r0.timestamp, r0.metadata⟩ := by
            simp [add_vote, h, hv]
          constructor
          · intro k r hk
            rw [hstate] at hk
            by_cases hkk : pyStrOf m = k
            · rw [← hkk, getKey?_setKey_self] at hk
              cases hk
              have h0 : r0.voters.Nodup := hnd (pyStrOf m) r0 h
              simp [List.nodup_append, h0, hv]
            · rw [getKey?_setKey_ne _ _ _ _ hkk] at hk
              exact hnd k r hk
          · refine ⟨⟨r0.voters ++ [pyStrOf v], r0.timestamp, r0.metadata⟩, ?_, ?_⟩
            · rw [hstate]
              exact getKey?_setKey_self _ _ _
            · simp [add_vote, h, hv]

theorem add_vote_spec_witness :
    add_vote ([] : List (String × VoteRecord String)) (.str "5") (.str "7")
        (some "meta") 1
      = ⟨[("5", ⟨["7"], 1, some "meta"⟩)], 1, false⟩
    ∧ add_vote [("5", (⟨["7"], 1, some "meta"⟩ : VoteRecord String))]
        (.str "5") (.str "7") none 2
      = ⟨[("5", ⟨["7"], 1, some "meta"⟩)], 1, true⟩
    ∧ add_vote [("5", (⟨["7"], 1, some "meta"⟩ : VoteRecord String))]
        (.str "5") (.str "9") none 2
      = ⟨[("5", ⟨["7", "9"], 1, some "meta"⟩)], 2, false⟩ := by
  refine ⟨?_, ?_, ?_⟩
  · exact (add_vote_spec [] (.str "5") (.str "7") (some "meta") 1).1 rfl
  · exact (add_vote_spec _ (.str "5") (.str "7") none 2).2.2.1 ⟨["7"], 1, some "meta"⟩
      rfl (by decide)
  · exact (add_vote_spec _ (.str "5") (.str "9") none 2).2.2.2.1 ⟨["7"], 1, some "meta"⟩
      rfl (by decide)

/-- C10: `add_vote` coerces both ids to strings before any lookup, so a vote
submitted with integer ids followed by one with the corresponding string ids
addresses the same record and voter: the second call reports a duplicate vote
and leaves both the count and the state unchanged. -/
theorem add_vote_int_str_coercion {M : Type} (votes : List (String × VoteRecord M))
    (m v : ℤ) (d d' : Option M) (now now' : ℚ) :
    (add_vote (add_vote votes (.int m) (.int v) d now).votes
        (.str (toString m)) (.str (toString v)) d' now').is_duplicate_vote = true
    ∧ (add_vote (add_vote votes (.int m) (.int v) d now).votes
        (.str (toString m)) (.str (toString v)) d' now').count
      = (add_vote votes (.int m) (.int v) d now).count
    ∧ (add_vote (add_vote votes (.int m) (.int v) d now).votes
        (.str (toString m)) (.str (toString v)) d' now').votes
      = (add_vote votes (.int m) (.int v) d now).votes := by
  obtain ⟨rec, hrec, hw, hcount⟩ :
      ∃ rec, getKey? (add_vote votes (.int m) (.int v) d now).votes (toString m)
          = some rec
        ∧ toString v ∈ rec.voters
        ∧ (add_vote votes (.int m) (.int v) d now).count = rec.voters.length := by
    cases h : getKey? votes (toString m) with
    | none =>
        refine ⟨⟨[toString v], now, d⟩, ?_, by simp, ?_⟩
        · have hstate : (add_vote votes (.int m) (.int v) d now).votes
              = setKey votes (toString m) ⟨[toString v], now, d⟩ := by
            simp [add_vote, pyStrOf, h]
          rw [hstate]
          exact getKey?_setKey_self _ _ _
        · simp [add_vote, pyStrOf, h]
    | some r0 =>
        by_cases hv : toString v ∈ r0.voters
        · refine ⟨r0, ?_, hv, ?_⟩
          · have hstate : (add_vote votes (.int m) (.int v) d now).votes = votes := by
              simp [add_vote, pyStrOf, h, hv]
            rw [hstate, h]
          · simp [add_vote, pyStrOf, h, hv]
        · refine ⟨⟨r0.voters ++ [toString v], r0.timestamp, r0.metadata⟩, ?_, ?_, ?_⟩
          · have hstate : (add_vote votes (.int m) (.int v) d now).votes
                = setKey votes (toString m)
                    ⟨r0.voters ++ [toString v], r0.timestamp, r0.metadata⟩ := by
              simp [add_vote, pyStrOf, h, hv]
            rw [hstate]
            exact getKey?_setKey_self _ _ _
          · simp
          · simp [add_vote, pyStrOf, h, hv]
  have houter : add_vote (add_vote votes (.int m) (.int v) d now).votes
      (.str (toString m)) (.str (toString v)) d' now'
      = ⟨(add_vote votes (.int m) (.int v) d now).votes, rec.voters.length, true⟩ :=
    add_vote_dup_eq _ (.str (toString m)) (.str (toString v)) d' now' rec hrec hw
  refine ⟨?_, ?_, ?_⟩
  · rw [houter]
  · rw [houter, hcount]
  · rw [houter]

/-- C7 (counterexample): the claim that each preview is truncated to at most
`maxPreviewLength` characters fails — a six-character content with
`maxPreviewLength = 3` yields the five-plus-one-character preview "abc...",
because the code appends "..." after cutting. -/
theorem get_content_previews_truncation_counterexample :
    get_content_previews [⟨"e1", ['a', 'b', 'c', 'd', 'e', 'f'], "c", 1, []⟩] 1 3
      = [['a', 'b', 'c', '.', '.', '.']]
    ∧ ¬(['a', 'b', 'c', '.', '.', '.'] : List Char).length ≤ 3 := by
  constructor
  · decide
  · decide

/-- C7 (amended): `getContentPreviews(limit, maxPreviewLength)` returns the
previews of the `limit` most-recently-removed entries ordered by `removed_at`
descending (every selected entry is at least as recent as every unselected
one); each preview is the full content when it has at most
`maxPreviewLength` characters and otherwise the first `maxPreviewLength`
characters followed by "..." — hence at most `maxPreviewLength + 3`
characters, not `maxPreviewLength`. -/
theorem get_content_previews_spec (entries : List RemovedEntry) (limit maxLen : ℕ) :
    ∃ sel rest,
      List.insertionSort (fun a b => b.removed_at ≤ a.removed_at) entries = sel ++ rest
      ∧ entries.Perm (sel ++ rest)
      ∧ sel.length = min limit entries.length
      ∧ List.Pairwise (fun a b => b.removed_at ≤ a.removed_at) sel
      ∧ (∀ a ∈ sel, ∀ b ∈ rest, b.removed_at ≤ a.removed_at)
      ∧ get_content_previews entries limit maxLen
        = sel.map (fun e =>
            if e.content.length > maxLen then e.content.take maxLen ++ ['.', '.', '.']
            else e.content)
      ∧ ∀ p ∈ get_content_previews entries limit maxLen, p.length ≤ maxLen + 3 := by
  haveI instTot : IsTotal RemovedEntry (fun a b => b.removed_at ≤ a.removed_at) :=
    ⟨fun a b => le_total b.removed_at a.removed_at⟩
  haveI instTrans : IsTrans RemovedEntry (fun a b => b.removed_at ≤ a.removed_at) :=
    ⟨fun _ _ _ hab hbc => le_trans hbc hab⟩
  have hperm : (List.insertionSort (fun a b => b.removed_at ≤ a.removed_at)
      entries).Perm entries := List.perm_insertionSort _ _
  have hsorted : List.Pairwise (fun a b => b.removed_at ≤ a.removed_at)
      (List.insertionSort (fun a b => b.removed_at ≤ a.removed_at) entries) :=
    List.sorted_insertionSort _ _
  refine ⟨(List.insertionSort (fun a b => b.removed_at ≤ a.removed_at) entries).take
      limit,
    (List.insertionSort (fun a b => b.removed_at ≤ a.removed_at) entries).drop limit,
    (List.take_append_drop _ _).symm, ?_, ?_, ?_, ?_, ?_, ?_⟩
  · rw [List.take_append_drop]
    exact hperm.symm
  · rw [List.length_take, hperm.length_eq]
  · exact List.Pairwise.sublist (List.take_sublist limit _) hsorted
  · have hsplit : List.Pairwise (fun a b => b.removed_at ≤ a.removed_at)
        ((List.insertionSort (fun a b => b.removed_at ≤ a.removed_at) entries).take
            limit
          ++ (List.insertionSort (fun a b => b.removed_at ≤ a.removed_at)
              entries).drop limit) := by
      rw [List.take_append_drop]
      exact hsorted
    exact (List.pairwise_append.mp hsplit).2.2
  · rfl
  · intro p hp
    simp only [get_content_previews, get_recent_removed_entries, List.mem_map] at hp
    obtain ⟨e, -, rfl⟩ := hp
    by_cases hlen : e.content.length > maxLen
    · simp only [hlen, if_true, List.length_append, List.length_take]
      have : min maxLen e.content.length ≤ maxLen := min_le_left _ _
      simp only [List.length_cons, List.length_nil]
      omega
    · simp only [hlen, if_false]
      omega

theorem get_content_previews_spec_witness :
    ∀ p ∈ get_content_previews [⟨"e1", ['a', 'b', 'c', 'd', 'e', 'f'], "c", 1, []⟩] 1 3,
      p.length ≤ 3 + 3 := by
  obtain ⟨-, -, -, -, -, -, -, -, h⟩ :=
    get_content_previews_spec [⟨"e1", ['a', 'b', 'c', 'd', 'e', 'f'], "c", 1, []⟩] 1 3
  exact h

theorem mem_keys_of_getKey? {β : Type} (l : List (String × β)) (k : String) (v : β)
    (h : getKey? l k = some v) : k ∈ l.map Prod.fst := by
  induction l with
  | nil => cases h
  | cons q rest ih =>
      simp only [getKey?] at h
      by_cases hq : q.1 = k
      · simp [← hq]
      · rw [if_neg hq] at h
        simp [ih h]

theorem mem_of_getKey? {β : Type} (l : List (String × β)) (k : String) (v : β)
    (h : getKey? l k = some v) : (k, v) ∈ l := by
  induction l with
  | nil => cases h
  | cons q rest ih =>
      simp only [getKey?] at h
      by_cases hq : q.1 = k
      · rw [if_pos hq] at h
        obtain rfl := Option.some.inj h
        have hq2 : q = (k, q.2) := by rw [← hq]
        rw [← hq2]
        exact List.mem_cons_self q rest
      · rw [if_neg hq] at h
        exact List.mem_cons_of_mem q (ih h)

theorem getKey?_eq_of_mem_nodup {β : Type} (l : List (String × β)) (p : String × β)
    (hnd : (l.map Prod.fst).Nodup) (hp : p ∈ l) : getKey? l p.1 = some p.2 := by
  induction l with
  | nil => cases hp
  | cons q rest ih =>
      simp only [List.map_cons, List.nodup_cons] at hnd
      rcases List.mem_cons.mp hp with h1 | h2
      · subst h1
        simp [getKey?]
      · have hne : q.1 ≠ p.1 := by
          intro he
          exact hnd.1 (he ▸ List.mem_map_of_mem Prod.fst h2)
        simp [getKey?, hne, ih hnd.2 h2]

theorem getKey?_filter_of_nodup {β : Type} (l : List (String × β))
    (pred : String × β → Bool) (k : String) (v : β)
    (hnd : (l.map Prod.fst).Nodup) (h : getKey? (l.filter pred) k = some v) :
    getKey? l k = some v := by
  induction l with
  | nil => cases h
  | cons q rest ih =>
      simp only [List.map_cons, List.nodup_cons] at hnd
      rw [List.filter_cons] at h
      by_cases hq : pred q = true
      · rw [if_pos hq] at h
        simp only [getKey?] at h ⊢
        by_cases hk : q.1 = k
        · simpa [hk] using h
        · rw [if_neg hk] at h ⊢
          exact ih hnd.2 h
      · rw [if_neg hq] at h
        have hres := ih hnd.2 h
        have hkmem : k ∈ rest.map Prod.fst := mem_keys_of_getKey? rest k v hres
        have hne : q.1 ≠ k := fun he => hnd.1 (he ▸ hkmem)
        simp [getKey?, hne, hres]

theorem getKey?_none_iff {β : Type} (l : List (String × β)) (k : String) :
    getKey? l k = none ↔ k ∉ l.map Prod.fst := by
  induction l with
  | nil => simp [getKey?]
  | cons q rest ih =>
      simp only [getKey?, List.map_cons, List.mem_cons]
      by_cases hq : q.1 = k
      · simp [hq]
      · simp [hq, ih, Ne.symm hq]

theorem getKey?_filter_none_of_none {β : Type} (l : List (String × β))
    (pred : String × β → Bool) (k : String) (h : getKey? l k = none) :
    getKey? (l.filter pred) k = none := by
  rw [getKey?_none_iff] at h ⊢
  intro hk
  exact h (((List.filter_sublist l).map Prod.fst).subset hk)

theorem getKey?_filter_none {β : Type} (l : List (String × β))
    (pred : String × β → Bool) (k : String) (v : β)
    (hnd : (l.map Prod.fst).Nodup) (h : getKey? l k = some v)
    (hp : pred (k, v) = false) : getKey? (l.filter pred) k = none := by
  induction l with
  | nil => cases h
  | cons q rest ih =>
      simp only [List.map_cons, List.nodup_cons] at hnd
      rw [List.filter_cons]
      simp only [getKey?] at h
      by_cases hk : q.1 = k
      · rw [if_pos hk] at h
        obtain rfl := Option.some.inj h
        have hq : q = (k, q.2) := by rw [← hk]
        have hpq : pred q = false := by rw [hq]; exact hp
        rw [hpq]
        simp only [Bool.false_eq_true, if_false]
        apply getKey?_filter_none_of_none
        rw [getKey?_none_iff]
        exact hk ▸ hnd.1
      · rw [if_neg hk] at h
        by_cases hq : pred q = true
        · rw [if_pos hq]
          simp only [getKey?, if_neg hk]
          exact ih hnd.2 h
        · rw [if_neg hq]
          exact ih hnd.2 h

theorem getEntriesLoop_eq (max : ℕ) (delay cyc : ℤ) (l : List (String × RetryInfo)) :
    getEntriesLoop max delay cyc l =
      ⟨(l.filter (fun p => !decide (p.2.retry_count > max)
          && decide (cyc - p.2.last_attempt_cycle ≥ delay))).map Prod.fst,
       l.filter (fun p => !decide (p.2.retry_count > max)),
       (l.filter (fun p => decide (p.2.retry_count > max))).map
         (fun p => (p.1, "max_retries_exceeded"))⟩ := by
  induction l with
  | nil => rfl
  | cons p rest ih =>
      obtain ⟨id, info⟩ := p
      simp only [getEntriesLoop, ih, List.filter_cons]
      by_cases h1 : info.retry_count > max
      · simp [h1]
      · by_cases h2 : cyc - info.last_attempt_cycle ≥ delay <;> simp [h1, h2]

/-- C5: an existing retry-queue entry has its `retry_count` incremented by
`add_entry` (a new id starts at 1); no operation ever decreases a stored
`retry_count`; an entry whose `retry_count` exceeds `max_retries` is evicted
by `get_entries_to_retry` via `remove_entry` with reason
"max_retries_exceeded", is not among the returned entries, and is gone from
the queue afterwards; and `get_entries_to_retry` only ever returns ids
currently queued with `retry_count ≤ max_retries` — so an item that failed
extraction `max_retries + 1` times is never retried again. -/
theorem retry_queue_spec (q : RetryQueue) (i : String) :
    (getKey? q.queue i = none →
      getKey? (q.add_entry i).queue i = some ⟨1, q.current_cycle, q.current_cycle⟩)
    ∧ (∀ info, getKey? q.queue i = some info →
        getKey? (q.add_entry i).queue i
          = some ⟨info.retry_count + 1, info.first_attempt_cycle, q.current_cycle⟩)
    ∧ (∀ j info info', getKey? q.queue j = some info →
        ((getKey? (q.add_entry i).queue j = some info' →
            info.retry_count ≤ info'.retry_count)
          ∧ (getKey? (q.remove_entry i).queue j = some info' →
            info.retry_count ≤ info'.retry_count)
          ∧ (getKey? q.increment_cycle.queue j = some info' →
            info.retry_count ≤ info'.retry_count)
          ∧ ((q.queue.map Prod.fst).Nodup →
            getKey? (q.get_entries_to_retry).2.1.queue j = some info' →
            info.retry_count ≤ info'.retry_count)
          ∧ (∀ hrs, (q.queue.map Prod.fst).Nodup →
            getKey? (q.cleanup_old_entries hrs).queue j = some info' →
            info.retry_count ≤ info'.retry_count)))
    ∧ (∀ info, (q.queue.map Prod.fst).Nodup →
        getKey? q.queue i = some info → info.retry_count > q.max_retries →
        (i, "max_retries_exceeded") ∈ (q.get_entries_to_retry).2.2
        ∧ i ∉ (q.get_entries_to_retry).1
        ∧ getKey? (q.get_entries_to_retry).2.1.queue i = none)
    ∧ ((q.queue.map Prod.fst).Nodup →
        ∀ j ∈ (q.get_entries_to_retry).1,
          ∃ info, getKey? q.queue j = some info ∧ info.retry_count ≤ q.max_retries) := by
  refine ⟨?_, ?_, ?_, ?_, ?_⟩
  · intro h
    simp [RetryQueue.add_entry, h, getKey?_setKey_self]
  · intro info h
    simp [RetryQueue.add_entry, h, getKey?_setKey_self]
  · intro j info info' hinfo
    refine ⟨?_, ?_, ?_, ?_, ?_⟩
    · intro h'
      unfold RetryQueue.add_entry at h'
      cases hq : getKey? q.queue i with
      | none =>
          rw [hq] at h'
          by_cases hij : i = j
          · rw [← hij] at hinfo
            rw [hinfo] at hq
            cases hq
          · simp only at h'
            rw [getKey?_setKey_ne _ _ _ _ hij, hinfo] at h'
            obtain rfl := Option.some.inj h'
            exact le_refl _
      | some info0 =>
          rw [hq] at h'
          by_cases hij : i = j
          · rw [← hij] at hinfo
            rw [hinfo] at hq
            obtain rfl := Option.some.inj hq
            rw [← hij, getKey?_setKey_self] at h'
            obtain rfl := Option.some.inj h'
            simp
          · simp only at h'
            rw [getKey?_setKey_ne _ _ _ _ hij, hinfo] at h'
            obtain rfl := Option.some.inj h'
            exact le_refl _
    · intro h'
      unfold RetryQueue.remove_entry at h'
      by_cases hij : i = j
      · rw [← hij] at h'
        simp only at h'
        rw [getKey?_eraseKey_self] at h'
        cases h'
      · simp only at h'
        rw [getKey?_eraseKey_ne _ _ _ hij, hinfo] at h'
        obtain rfl := Option.some.inj h'
        exact le_refl _
    · intro h'
      unfold RetryQueue.increment_cycle at h'
      simp only at h'
      rw [hinfo] at h'
      obtain rfl := Option.some.inj h'
      exact le_refl _
    · intro hnd h'
      unfold RetryQueue.get_entries_to_retry at h'
      rw [getEntriesLoop_eq] at h'
      simp only at h'
      have := getKey?_filter_of_nodup _ _ _ _ hnd h'
      rw [hinfo] at this
      obtain rfl := Option.some.inj this
      exact le_refl _
    · intro hrs hnd h'
      unfold RetryQueue.cleanup_old_entries at h'
      simp only at h'
      have := getKey?_filter_of_nodup _ _ _ _ hnd h'
      rw [hinfo] at this
      obtain rfl := Option.some.inj this
      exact le_refl _
  · intro info hnd hinfo hcount
    have hmem : (i, info) ∈ q.queue := mem_of_getKey? _ _ _ hinfo
    refine ⟨?_, ?_, ?_⟩
    · unfold RetryQueue.get_entries_to_retry
      rw [getEntriesLoop_eq]
      simp only
      refine List.mem_map.mpr ⟨(i, info), ?_, rfl⟩
      rw [List.mem_filter]
      exact ⟨hmem, by simpa using hcount⟩
    · unfold RetryQueue.get_entries_to_retry
      rw [getEntriesLoop_eq]
      simp only
      intro hin
      obtain ⟨p, hpf, hpi⟩ := List.mem_map.mp hin
      rw [List.mem_filter] at hpf
      have hkey : getKey? q.queue p.1 = some p.2 := getKey?_eq_of_mem_nodup _ _ hnd hpf.1
      rw [hpi, hinfo] at hkey
      obtain rfl := Option.some.inj hkey
      have := hpf.2
      simp only [Bool.and_eq_true, Bool.not_eq_true', decide_eq_false_iff_not] at this
      exact this.1 hcount
    · unfold RetryQueue.get_entries_to_retry
      rw [getEntriesLoop_eq]
      simp only
      apply getKey?_filter_none _ _ _ _ hnd hinfo
      simp [hcount]
  · intro hnd j hj
    unfold RetryQueue.get_entries_to_retry at hj
    rw [getEntriesLoop_eq] at hj
    simp only at hj
    obtain ⟨p, hpf, hpi⟩ := List.mem_map.mp hj
    rw [List.mem_filter] at hpf
    have hkey : getKey? q.queue p.1 = some p.2 := getKey?_eq_of_mem_nodup _ _ hnd hpf.1
    have := hpf.2
    simp only [Bool.and_eq_true, Bool.not_eq_true', decide_eq_false_iff_not] at this
    exact ⟨p.2, hpi ▸ hkey, by omega⟩

theorem retry_queue_spec_witness :
    getKey? (RetryQueue.add_entry ⟨3, 2, [("x", ⟨4, 0, 0⟩), ("y", ⟨1, 0, 0⟩)], 5⟩
        "z").queue "z" = some ⟨1, 5, 5⟩
    ∧ getKey? (RetryQueue.add_entry ⟨3, 2, [("x", ⟨4, 0, 0⟩), ("y", ⟨1, 0, 0⟩)], 5⟩
        "y").queue "y" = some ⟨2, 0, 5⟩
    ∧ (1 : ℕ) ≤ 1
    ∧ ("x", "max_retries_exceeded")
        ∈ (RetryQueue.get_entries_to_retry
            ⟨3, 2, [("x", ⟨4, 0, 0⟩), ("y", ⟨1, 0, 0⟩)], 5⟩).2.2
    ∧ "x" ∉ (RetryQueue.get_entries_to_retry
            ⟨3, 2, [("x", ⟨4, 0, 0⟩), ("y", ⟨1, 0, 0⟩)], 5⟩).1
    ∧ getKey? (RetryQueue.get_entries_to_retry
            ⟨3, 2, [("x", ⟨4, 0, 0⟩), ("y", ⟨1, 0, 0⟩)], 5⟩).2.1.queue "x" = none
    ∧ ∃ info, getKey? (⟨3, 2, [("x", ⟨4, 0, 0⟩), ("y", ⟨1, 0, 0⟩)], 5⟩ :
        RetryQueue).queue "y" = some info ∧ info.retry_count ≤ 3 := by
  have hd := (retry_queue_spec ⟨3, 2, [("x", ⟨4, 0, 0⟩), ("y", ⟨1, 0, 0⟩)], 5⟩
    "x").2.2.2.1 ⟨4, 0, 0⟩ (by decide) (by decide) (by decide)
  refine ⟨?_, ?_, ?_, hd.1, hd.2.1, hd.2.2, ?_⟩
  · exact (retry_queue_spec ⟨3, 2, [("x", ⟨4, 0, 0⟩), ("y", ⟨1, 0, 0⟩)], 5⟩ "z").1
      (by decide)
  · exact (retry_queue_spec ⟨3, 2, [("x", ⟨4, 0, 0⟩), ("y", ⟨1, 0, 0⟩)], 5⟩ "y").2.1
      ⟨1, 0, 0⟩ (by decide)
  · exact ((retry_queue_spec ⟨3, 2, [("x", ⟨4, 0, 0⟩), ("y", ⟨1, 0, 0⟩)], 5⟩
      "x").2.2.1 "y" ⟨1, 0, 0⟩ ⟨1, 0, 0⟩ (by decide)).2.2.1 (by decide)
  · exact (retry_queue_spec ⟨3, 2, [("x", ⟨4, 0, 0⟩), ("y", ⟨1, 0, 0⟩)], 5⟩
      "x").2.2.2.2 (by decide) "y" (by decide)

/-- C8: within one batch cycle the collected items (retry-queue entries plus
the freshly polled ones) are sorted ascending by `get_entry_timestamp` before
sequential processing; an item with no usable timestamp (absent or falsy
`timestamp`, and absent, empty or unparseable `pub_date`) gets sort key 0,
the earliest; and items queued with timestamps [30, 10, 20] come out in the
order [10, 20, 30]. -/
theorem poll_cycle_ordering (parse : String → Option ℚ)
    (retryE rssE tgE : List PollEntry) :
    (collectAndSortEntries parse retryE rssE tgE).Perm (retryE ++ rssE ++ tgE)
    ∧ List.Pairwise
        (fun a b => get_entry_timestamp parse a ≤ get_entry_timestamp parse b)
        (collectAndSortEntries parse retryE rssE tgE)
    ∧ (∀ e : PollEntry, e.timestamp = none →
        (∀ s, e.pub_date = some s → parse s = none) →
        get_entry_timestamp parse e = 0)
    ∧ collectAndSortEntries (fun _ => none)
        [⟨"a", some 30, none⟩] [⟨"b", some 10, none⟩] [⟨"c", some 20, none⟩]
        = [⟨"b", some 10, none⟩, ⟨"c", some 20, none⟩, ⟨"a", some 30, none⟩] := by
  haveI instTot : IsTotal PollEntry
      (fun a b => get_entry_timestamp parse a ≤ get_entry_timestamp parse b) :=
    ⟨fun _ _ => le_total _ _⟩
  haveI instTrans : IsTrans PollEntry
      (fun a b => get_entry_timestamp parse a ≤ get_entry_timestamp parse b) :=
    ⟨fun _ _ _ => le_trans⟩
  refine ⟨List.perm_insertionSort _ _, List.sorted_insertionSort _ _, ?_, by decide⟩
  intro e h1 h2
  cases hp : e.pub_date with
  | none => simp [get_entry_timestamp, h1, hp]
  | some s =>
      by_cases hs : s = ""
      · simp [get_entry_timestamp, h1, hp, hs]
      · simp [get_entry_timestamp, h1, hp, hs, h2 s hp]

theorem poll_cycle_ordering_witness :
    get_entry_timestamp (fun _ => none) ⟨"w", none, none⟩ = 0 :=
  (poll_cycle_ordering (fun _ => none) [] [] []).2.2.1 ⟨"w", none, none⟩ rfl
    (fun _ hs => by cases hs)

theorem is_processed_mark_self (db : Database) (i : String) (now : ℚ) :
    (db.mark_processed i now).is_processed i = true := by
  simp [Database.mark_processed, Database.is_processed, hasKey, getKey?_setKey_self]

theorem is_processed_mark_ne (db : Database) (i j : String) (now : ℚ) (h : i ≠ j) :
    (db.mark_processed i now).is_processed j = db.is_processed j := by
  simp [Database.mark_processed, Database.is_processed, hasKey,
    getKey?_setKey_ne _ _ _ _ h]

theorem cycleStep_publishInv (s : PipeState) (e : CycleEntry) (now : ℚ)
    (h : PublishInv s) : PublishInv (cycleStep s e now) := by
  unfold cycleStep processEntryStep
  by_cases hp : s.db.is_processed e.id = true
  · simp only [hp, if_true]
    exact h
  · have hp' : s.db.is_processed e.id = false := by
      cases hb : s.db.is_processed e.id
      · rfl
      · exact absurd hb hp
    simp only [hp', Bool.false_eq_true, if_false]
    by_cases hr : (e.reachesPublish && e.publishOk) = true
    · simp only [hr, if_true, Bool.false_eq_true, if_false]
      intro id
      dsimp only
      by_cases hid : id = e.id
      · have hzero : s.published.count e.id = 0 := by
          by_contra hnz
          have h1 : 1 ≤ s.published.count e.id := Nat.one_le_iff_ne_zero.mpr hnz
          have h2 := (h e.id).2 h1
          rw [h2] at hp'
          cases hp'
        rw [hid]
        constructor
        · simp [List.count_append, hzero]
        · intro _
          exact is_processed_mark_self _ _ _
      · have hcnt : (s.published ++ [e.id]).count id = s.published.count id := by
          simp [List.count_append, List.count_cons, beq_iff_eq, hid]
        constructor
        · rw [hcnt]
          exact (h id).1
        · intro h1
          rw [is_processed_mark_ne _ _ _ _ (fun he => hid he.symm)]
          exact (h id).2 (by rwa [hcnt] at h1)
    · simp only [hr, Bool.false_eq_true, if_false]
      exact h

theorem runCycle_publishInv (entries : List CycleEntry) (s : PipeState) (now : ℚ)
    (h : PublishInv s) : PublishInv (runCycle s entries now) := by
  induction entries generalizing s with
  | nil => exact h
  | cons e rest ih =>
      simp only [runCycle, List.foldl_cons]
      exact ih (cycleStep s e now) (cycleStep_publishInv s e now h)

/-- C4: an already-processed id makes `process_entry` return `False` without
publishing, and the batch cycle skips it while also purging it from the retry
queue; a successful publish is immediately recorded in the ledger; hence
sequential processing starting from a state satisfying the publish invariant
(no id published more than once, published ids ledgered) never publishes the
same id twice. -/
theorem process_entry_idempotent (s0 : PipeState) (entries : List CycleEntry)
    (now : ℚ) :
    (∀ (s : PipeState) (e : CycleEntry), s.db.is_processed e.id = true →
        processEntryStep s e now = (s, false))
    ∧ (∀ (s : PipeState) (e : CycleEntry), s.db.is_processed e.id = true →
        cycleStep s e now = { s with retry := s.retry.remove_entry e.id })
    ∧ (∀ (s : PipeState) (e : CycleEntry),
        (processEntryStep s e now).1.published ≠ s.published →
        (processEntryStep s e now).1.db.is_processed e.id = true)
    ∧ (PublishInv s0 →
        ∀ id, (runCycle s0 entries now).published.count id ≤ 1) := by
  refine ⟨?_, ?_, ?_, ?_⟩
  · intro s e hp
    simp [processEntryStep, hp]
  · intro s e hp
    simp [cycleStep, hp]
  · intro s e hne
    by_cases hp : s.db.is_processed e.id = true
    · exact absurd (by simp [processEntryStep, hp]) hne
    · have hp' : s.db.is_processed e.id = false := by
        cases hb : s.db.is_processed e.id
        · rfl
        · exact absurd hb hp
      by_cases hr : (e.reachesPublish && e.publishOk) = true
      · simp [processEntryStep, hp', hr, is_processed_mark_self]
      · exact absurd (by simp [processEntryStep, hp', hr]) hne
  · intro h0 id
    exact (runCycle_publishInv entries s0 now h0 id).1

theorem process_entry_idempotent_witness :
    processEntryStep ⟨⟨[("a", 0)], [], []⟩, ⟨3, 2, [], 0⟩, []⟩ ⟨"a", true, true⟩ 5
      = (⟨⟨[("a", 0)], [], []⟩, ⟨3, 2, [], 0⟩, []⟩, false)
    ∧ cycleStep ⟨⟨[("a", 0)], [], []⟩, ⟨3, 2, [], 0⟩, []⟩ ⟨"a", true, true⟩ 5
      = ⟨⟨[("a", 0)], [], []⟩,
          RetryQueue.remove_entry ⟨3, 2, [], 0⟩ "a", []⟩
    ∧ (processEntryStep ⟨⟨[], [], []⟩, ⟨3, 2, [], 0⟩, []⟩ ⟨"a", true, true⟩
        5).1.db.is_processed "a" = true
    ∧ ∀ id, (runCycle ⟨⟨[], [], []⟩, ⟨3, 2, [], 0⟩, []⟩
        [⟨"a", true, true⟩, ⟨"a", true, true⟩] 5).published.count id ≤ 1 := by
  refine ⟨?_, ?_, ?_, ?_⟩
  · exact (process_entry_idempotent ⟨⟨[], [], []⟩, ⟨3, 2, [], 0⟩, []⟩ [] 5).1 _ _
      (by decide)
  · exact (process_entry_idempotent ⟨⟨[], [], []⟩, ⟨3, 2, [], 0⟩, []⟩ [] 5).2.1 _ _
      (by decide)
  · exact (process_entry_idempotent ⟨⟨[], [], []⟩, ⟨3, 2, [], 0⟩, []⟩ [] 5).2.2.1 _ _
      (by decide)
  · exact (process_entry_idempotent ⟨⟨[], [], []⟩, ⟨3, 2, [], 0⟩, []⟩
      [⟨"a", true, true⟩, ⟨"a", true, true⟩] 5).2.2.2
      (fun id => ⟨by simp, by simp⟩)

end NewsBot
